import Mathlib

/-!
Shallow embedding of the jflash spaced-repetition core:
`src/backend/api/review.py` (SM-2 variant schedule engine, due queue,
reset) and `src/backend/api/stats.py` (daily statistics, accuracy trend,
streaks).  Timestamps are rationals measured in days, so that
`timedelta(days=n)` is addition of `n` and `func.date` / midnight
truncation is the integer floor.  Floats are modelled as rationals;
the Python `round` (banker rounding, half to even) is `pyRound`.
-/

namespace JFlash

/-- The Python built-in `round` on an exact rational: nearest integer,
ties to even. -/
def pyRound (q : ℚ) : ℤ :=
  let n : ℤ := ⌊q⌋
  let frac : ℚ := q - n
  if frac < 1/2 then n
  else if frac = 1/2 then (if n % 2 = 0 then n else n + 1)
  else n + 1

/-- One row of the `srs_reviews` table (`SRSReview` model). -/
structure SRSReview where
  vocab_id : ℤ
  interval : ℤ
  ease_factor : ℚ
  reps : ℕ
  next_review : ℚ
deriving Repr, DecidableEq

/-- One row of the `study_logs` table (`StudyLog` model): append-only
outcome events. -/
structure StudyLogEntry where
  vocab_id : ℤ
  known : Bool
  studied_at : ℚ
deriving Repr, DecidableEq

/-- Constant MIN_EASE_FACTOR = 1.3 from review.py. -/
def MIN_EASE_FACTOR : ℚ := 13/10

/-- Constant MAX_INTERVAL = 365 from review.py. -/
def MAX_INTERVAL : ℤ := 365

/-- The pure SM-2 state transition inside `submit_answer`
(review.py lines 139-163): branch on the submitted outcome, update
interval / ease factor / reps, then reschedule from the new interval. -/
def applyOutcome (srs : SRSReview) (known : Bool) (now : ℚ) : SRSReview :=
  if known then
    let new_interval0 : ℤ :=
      if srs.reps = 0 then 1
      else if srs.reps = 1 then 6
      else pyRound ((srs.interval : ℚ) * srs.ease_factor)
    let new_interval : ℤ := min new_interval0 MAX_INTERVAL
    let new_ease : ℚ := srs.ease_factor + 1/10
    { srs with
      interval := new_interval,
      ease_factor := min new_ease (5/2),
      reps := srs.reps + 1,
      next_review := now + (new_interval : ℚ) }
  else
    let new_interval : ℤ := 1
    let new_ease : ℚ := max (srs.ease_factor - 2/10) MIN_EASE_FACTOR
    { srs with
      interval := new_interval,
      ease_factor := new_ease,
      next_review := now + (new_interval : ℚ) }

/-- The administrative reset of a single state (`reset_srs` body,
review.py lines 224-227). -/
def resetState (srs : SRSReview) (now : ℚ) : SRSReview :=
  { srs with interval := 0, ease_factor := 5/2, next_review := now, reps := 0 }

/-- Database contents relevant to the core: the SRS table and the study
log. -/
structure DB where
  srs : List SRSReview
  logs : List StudyLogEntry
deriving Repr, DecidableEq

/-- Replace the first record with the given vocab id (the ORM mutates the
row returned by `.first()`). -/
def updateFirst (l : List SRSReview) (vid : ℤ) (f : SRSReview → SRSReview) :
    List SRSReview :=
  match l with
  | [] => []
  | s :: rest =>
    if s.vocab_id = vid then f s :: rest else s :: updateFirst rest vid f

/-- The handler submit_answer (review.py lines 119-173): look up the SRS record for
the vocab id; 404 (`none`) when absent; otherwise append one study-log
entry recording the raw outcome and timestamp, and apply the SM-2
transition to that record.  Returns the updated database and the updated
record (the response payload). -/
def submit_answer (db : DB) (vid : ℤ) (known : Bool) (now : ℚ) :
    Option (DB × SRSReview) :=
  match db.srs.find? (fun s => decide (s.vocab_id = vid)) with
  | none => none
  | some s =>
    let newLog : StudyLogEntry := ⟨vid, known, now⟩
    some
      ({ srs := updateFirst db.srs vid (fun t => applyOutcome t known now),
         logs := db.logs ++ [newLog] },
       applyOutcome s known now)

/-- The handler reset_srs (review.py lines 214-231): 404 (`none`) when the vocab id
has no SRS record; otherwise overwrite that record with the default state
and touch nothing else (in particular no study-log entry). -/
def reset_srs (db : DB) (vid : ℤ) (now : ℚ) : Option DB :=
  match db.srs.find? (fun s => decide (s.vocab_id = vid)) with
  | none => none
  | some _ =>
    some { db with srs := updateFirst db.srs vid (fun s => resetState s now) }

/-- Comparison used by the due-queue `ORDER BY next_review ASC`. -/
def dueLe (a b : SRSReview) : Bool := decide (a.next_review ≤ b.next_review)

/-- Core of `get_review_cards` (review.py lines 75-116): filter the SRS
table to records due at `now`, order ascending by `next_review`, truncate
to `limit`; the accompanying total is the uncapped count of due
records. -/
def get_review_cards (store : List SRSReview) (now : ℚ) (limit : ℕ) :
    List SRSReview × ℕ :=
  let due := store.filter (fun s => decide (s.next_review ≤ now))
  ((due.mergeSort dueLe).take limit, due.length)

/-- The endpoint wrapper: `limit: int = Query(20, ge=1, le=100)` rejects
out-of-range limits before the handler runs. -/
def get_review_cards_endpoint (store : List SRSReview) (now : ℚ)
    (limit : ℤ) : Option (List SRSReview × ℕ) :=
  if 1 ≤ limit ∧ limit ≤ 100 then
    some (get_review_cards store now limit.toNat)
  else none

/-! ### Statistics (`src/backend/api/stats.py`) -/

/-- The SQL date(studied_at) of an event: its calendar day, as the floor
of its day-valued timestamp. -/
def dateOf (e : StudyLogEntry) : ℤ := ⌊e.studied_at⌋

/-- One element of the `/stats/daily` response. -/
structure DailyStats where
  date : ℤ
  total_reviews : ℕ
  correct : ℕ
  incorrect : ℕ
  accuracy : ℚ
  new_words_learned : ℕ
deriving Repr, DecidableEq

/-- Python `round(x, 1)`. -/
def round1 (q : ℚ) : ℚ := (pyRound (q * 10) : ℚ) / 10

/-- Count of window log entries on day `d` (`COUNT` grouped by date, over
entries with `studied_at >= start_date`, looked up with default 0). -/
def dayTotal (log : List StudyLogEntry) (start d : ℤ) : ℕ :=
  (log.filter (fun e =>
    decide ((start : ℚ) ≤ e.studied_at) && decide (dateOf e = d))).length

/-- Count of correct window entries on day `d`
(`SUM(CASE WHEN known THEN 1 ELSE 0 END)`). -/
def dayCorrect (log : List StudyLogEntry) (start d : ℤ) : ℕ :=
  (log.filter (fun e =>
    e.known && decide ((start : ℚ) ≤ e.studied_at) && decide (dateOf e = d))).length

/-- Count of incorrect window entries on day `d`
(`SUM(CASE WHEN NOT known THEN 1 ELSE 0 END)`). -/
def dayIncorrect (log : List StudyLogEntry) (start d : ℤ) : ℕ :=
  (log.filter (fun e =>
    !e.known && decide ((start : ℚ) ≤ e.studied_at) && decide (dateOf e = d))).length

/-- The grouped subquery `first_success_subq`: the earliest correct
timestamp for a vocab item over the whole log, `none` when the item has
no correct entry. -/
def firstSuccess (log : List StudyLogEntry) (v : ℤ) : Option ℚ :=
  (((log.filter (fun e => e.known)).filter
      (fun e => decide (e.vocab_id = v))).map (fun e => e.studied_at)).min?

/-- The distinct vocab ids produced by grouping the correct log entries
by `vocab_id`. -/
def successVocabIds (log : List StudyLogEntry) : List ℤ :=
  ((log.filter (fun e => e.known)).map (fun e => e.vocab_id)).dedup

/-- The new_words_by_date lookup for day `d`: items whose first success is
at or after `start_date` and falls on day `d`. -/
def newWordsOn (log : List StudyLogEntry) (start d : ℤ) : ℕ :=
  ((successVocabIds log).filter (fun v =>
    match firstSuccess log v with
    | some t => decide ((start : ℚ) ≤ t) && decide (⌊t⌋ = d)
    | none => false)).length

/-- Assemble one `DailyStats` row for day `d` of a window starting at
`start` (stats.py lines 186-207). -/
def mkDailyStat (log : List StudyLogEntry) (start d : ℤ) : DailyStats :=
  let total := dayTotal log start d
  let correct := dayCorrect log start d
  let accuracy : ℚ :=
    if total > 0 then (correct : ℚ) / (total : ℚ) * 100 else 0
  { date := d,
    total_reviews := total,
    correct := correct,
    incorrect := dayIncorrect log start d,
    accuracy := round1 accuracy,
    new_words_learned := newWordsOn log start d }

/-- The handler get_daily_stats (stats.py lines 126-209): validate
`days: int = Query(7, ge=1, le=30)`, then report the last `days` calendar
days oldest to newest. -/
def get_daily_stats (log : List StudyLogEntry) (now : ℚ) (days : ℤ) :
    Option (List DailyStats) :=
  if 1 ≤ days ∧ days ≤ 30 then
    let today : ℤ := ⌊now⌋
    let start : ℤ := today - (days - 1)
    some ((List.range days.toNat).map
      (fun (j : ℕ) => mkDailyStat log start (start + (j : ℤ))))
  else none

/-- The `/stats/accuracy` response shape. -/
structure AccuracyData where
  dates : List ℤ
  accuracy : List ℚ
  total_reviews : List ℕ
deriving Repr, DecidableEq

/-- The handler get_accuracy_trend (stats.py lines 212-265): validate
`days: int = Query(14, ge=7, le=90)`, then the same per-day bucketing as
daily statistics restricted to date, accuracy and total. -/
def get_accuracy_trend (log : List StudyLogEntry) (now : ℚ) (days : ℤ) :
    Option AccuracyData :=
  if 7 ≤ days ∧ days ≤ 90 then
    let today : ℤ := ⌊now⌋
    let start : ℤ := today - (days - 1)
    let window := (List.range days.toNat).map
      (fun (j : ℕ) => start + (j : ℤ))
    some
      { dates := window,
        accuracy := window.map (fun d =>
          let total := dayTotal log start d
          round1 (if total > 0 then (dayCorrect log start d : ℚ) / (total : ℚ) * 100 else 0)),
        total_reviews := window.map (fun d => dayTotal log start d) }
  else none

/-- The `/stats/streak` response. -/
structure StreakInfo where
  current_streak : ℕ
  longest_streak : ℕ
  last_study_date : Option ℤ
deriving Repr, DecidableEq

/-- The current-streak loop of `get_streak_info` (stats.py lines
297-306): walk the distinct dates (descending) while each matches the
check date or the day before it, stepping the check date to the day
before the matched date. -/
def currentStreakAux (check : ℤ) (dates : List ℤ) : ℕ :=
  match dates with
  | [] => 0
  | d :: rest =>
    if d = check ∨ d = check - 1 then 1 + currentStreakAux (d - 1) rest
    else 0

/-- The longest-streak loop of `get_streak_info` (stats.py lines
308-318): scan consecutive pairs of the descending dates, counting runs
of unit gaps. -/
def longestStreakAux (prev : ℤ) (run longest : ℕ) (dates : List ℤ) : ℕ :=
  match dates with
  | [] => longest
  | d :: rest =>
    if prev - d = 1 then longestStreakAux d (run + 1) (max longest (run + 1)) rest
    else longestStreakAux d 1 longest rest

/-- The distinct study dates in descending order (the
`SELECT DISTINCT date(studied_at) ... ORDER BY ... DESC` query). -/
def studyDatesDesc (log : List StudyLogEntry) : List ℤ :=
  List.insertionSort (fun a b => b ≤ a) ((log.map dateOf).dedup)

/-- The handler get_streak_info (stats.py lines 268-324), with "today" passed in as
the current calendar day. -/
def get_streak_info (log : List StudyLogEntry) (today : ℤ) : StreakInfo :=
  match studyDatesDesc log with
  | [] => { current_streak := 0, longest_streak := 0, last_study_date := none }
  | d0 :: rest =>
    let current := currentStreakAux today (d0 :: rest)
    let longest := longestStreakAux d0 1 1 rest
    { current_streak := current,
      longest_streak := max longest current,
      last_study_date := some d0 }

/-! ### Specification-side predicates and concrete inputs -/

/-- Specification reading of "first success on day d": some correct
entry for the item falls on day `d` and is no later than every correct
entry for the item anywhere in the history. -/
def FirstLearnedOn (log : List StudyLogEntry) (v d : ℤ) : Prop :=
  ∃ e ∈ log, e.known = true ∧ e.vocab_id = v ∧ dateOf e = d ∧
    ∀ e2 ∈ log, e2.known = true → e2.vocab_id = v → e.studied_at ≤ e2.studied_at

instance (log : List StudyLogEntry) (v d : ℤ) :
    Decidable (FirstLearnedOn log v d) := by
  unfold FirstLearnedOn
  infer_instance

/-- Study log with events on 2024-01-01, -02, -03 and -05 (days since
1970-01-01), the streak example from the specification. -/
def c1Log : List StudyLogEntry :=
  [⟨1, true, 19723⟩, ⟨1, true, 19724⟩, ⟨1, true, 19725⟩, ⟨1, true, 19727⟩]

/-- A one-entry log: item 1 answered correctly at a quarter past
midnight of day 5; its only correct answer ever. -/
def ex6Log : List StudyLogEntry := [⟨1, true, 5 + 1/4⟩]

/-- Three-record store used to instantiate the due-queue theorem. -/
def ex5Store : List SRSReview :=
  [⟨1, 0, 5/2, 0, 10⟩, ⟨2, 0, 5/2, 0, 3⟩, ⟨3, 0, 5/2, 0, 7⟩]

/-- One-record database used to instantiate the submit-answer theorem. -/
def ex7DB : DB := ⟨[⟨1, 0, 5/2, 0, 0⟩], []⟩

/-- Two-record database used to instantiate the reset theorem. -/
def ex8DB : DB := ⟨[⟨2, 4, 2, 3, 9⟩, ⟨1, 7, 3/2, 5, 8⟩], [⟨1, true, 3⟩]⟩

/-! ### Helper lemmas -/

lemma pyRound_nonneg (q : ℚ) (h : 0 ≤ q) : 0 ≤ pyRound q := by
  have hf : (0 : ℤ) ≤ ⌊q⌋ := Int.floor_nonneg.mpr h
  unfold pyRound
  dsimp only
  split
  · exact hf
  · split
    · split
      · exact hf
      · omega
    · omega

lemma length_updateFirst (l : List SRSReview) (vid : ℤ)
    (f : SRSReview → SRSReview) : (updateFirst l vid f).length = l.length := by
  induction l with
  | nil => rfl
  | cons s rest ih =>
    unfold updateFirst
    split
    · simp
    · simp [ih]

/-! ### Claim theorems -/

/-- C2: on a correct outcome the engine produces interval 1 at reps 0,
6 at reps 1, and the rounded product of interval and ease factor
otherwise, clamped to at most 365; the ease factor becomes
min(ease + 0.1, 2.5); reps increments; and the next review is now plus
the new interval in days. -/
theorem review_correct_branch (s : SRSReview) (now : ℚ) :
    (applyOutcome s true now).interval =
      (if s.reps = 0 then 1 else if s.reps = 1 then 6
       else min (pyRound ((s.interval : ℚ) * s.ease_factor)) 365) ∧
    (applyOutcome s true now).interval ≤ 365 ∧
    (applyOutcome s true now).ease_factor = min (s.ease_factor + 1/10) (5/2) ∧
    (applyOutcome s true now).reps = s.reps + 1 ∧
    (applyOutcome s true now).next_review =
      now + ((applyOutcome s true now).interval : ℚ) := by
  by_cases h0 : s.reps = 0
  · refine ⟨?_, ?_, ?_, ?_, ?_⟩ <;> simp [applyOutcome, MAX_INTERVAL, h0]
  · by_cases h1 : s.reps = 1
    · refine ⟨?_, ?_, ?_, ?_, ?_⟩ <;> simp [applyOutcome, MAX_INTERVAL, h0, h1]
    · refine ⟨?_, ?_, ?_, ?_, ?_⟩ <;> simp [applyOutcome, MAX_INTERVAL, h0, h1]

/-- C3: on an incorrect outcome the engine resets the interval to 1,
decreases the ease factor to max(ease - 0.2, 1.3), leaves reps
unchanged, and schedules the next review one day after now; in
particular (interval 10, ease 2.0, reps 3) becomes
(interval 1, ease 1.8, reps 3, next review now + 1). -/
theorem review_incorrect_branch (s : SRSReview) (now : ℚ) :
    applyOutcome s false now =
      { s with interval := 1,
               ease_factor := max (s.ease_factor - 2/10) (13/10),
               next_review := now + 1 } ∧
    (applyOutcome s false now).reps = s.reps ∧
    applyOutcome ⟨7, 10, 2, 3, 99⟩ false now = ⟨7, 1, 9/5, 3, now + 1⟩ := by
  refine ⟨?_, ?_, ?_⟩
  · simp [applyOutcome, MIN_EASE_FACTOR]
  · simp [applyOutcome]
  · simp only [applyOutcome, MIN_EASE_FACTOR]
    norm_num

/-- C9: the reported longest streak is never smaller than the reported
current streak, for every study log and every current day. -/
theorem streak_longest_ge_current (log : List StudyLogEntry) (today : ℤ) :
    (get_streak_info log today).current_streak ≤
      (get_streak_info log today).longest_streak := by
  unfold get_streak_info
  cases h : studyDatesDesc log with
  | nil => simp
  | cons d0 rest =>
    dsimp only
    exact le_max_right _ _

/-- C1 exhibit: on the streak example from the specification (log dates
2024-01-01, -02, -03, -05, today 2024-01-05) the code returns current
streak 4 and longest streak 4, not the specified 1 and 3: the
yesterday-grace is applied at every step of the walk, not only at the
first check. -/
theorem streak_example_bug :
    get_streak_info c1Log 19727 =
      { current_streak := 4, longest_streak := 4,
        last_study_date := some 19727 } ∧
    (get_streak_info c1Log 19727).current_streak ≠ 1 ∧
    (get_streak_info c1Log 19727).longest_streak ≠ 3 := by
  decide

/-- C4: starting from any state inside the documented bounds, both
outcome branches of the engine and the administrative reset produce a
state with 1.3 ≤ ease factor ≤ 2.5 and 0 ≤ interval ≤ 365. -/
theorem srs_bounds_invariant (s : SRSReview) (known : Bool) (now : ℚ)
    (h1 : 13/10 ≤ s.ease_factor) (h2 : s.ease_factor ≤ 5/2)
    (h3 : 0 ≤ s.interval) (_h4 : s.interval ≤ 365) :
    (13/10 ≤ (applyOutcome s known now).ease_factor ∧
     (applyOutcome s known now).ease_factor ≤ 5/2 ∧
     0 ≤ (applyOutcome s known now).interval ∧
     (applyOutcome s known now).interval ≤ 365) ∧
    (13/10 ≤ (resetState s now).ease_factor ∧
     (resetState s now).ease_factor ≤ 5/2 ∧
     0 ≤ (resetState s now).interval ∧
     (resetState s now).interval ≤ 365) := by
  constructor
  · cases known with
    | false =>
      refine ⟨?_, ?_, ?_, ?_⟩
      · simp only [applyOutcome, Bool.false_eq_true, if_false]
        exact le_max_right _ _
      · simp only [applyOutcome, Bool.false_eq_true, if_false]
        exact max_le (by linarith) (by norm_num [MIN_EASE_FACTOR])
      · simp [applyOutcome]
      · simp [applyOutcome]
    | true =>
      have hx : (0 : ℚ) ≤ (s.interval : ℚ) * s.ease_factor :=
        mul_nonneg (by exact_mod_cast h3) (by linarith)
      have hpy := pyRound_nonneg _ hx
      refine ⟨?_, ?_, ?_, ?_⟩
      · simp only [applyOutcome, if_true]
        exact le_min (by linarith) (by norm_num)
      · simp only [applyOutcome, if_true]
        exact min_le_right _ _
      · simp only [applyOutcome, if_true]
        refine le_min ?_ (by norm_num [MAX_INTERVAL])
        split_ifs
        · norm_num
        · norm_num
        · exact hpy
      · simp only [applyOutcome, if_true]
        exact min_le_right _ _
  · refine ⟨?_, ?_, ?_, ?_⟩ <;> norm_num [resetState]

/-- Witness for C4 at the default state with a correct outcome. -/
theorem srs_bounds_invariant_witness :
    ((13/10 ≤ (applyOutcome ⟨1, 0, 5/2, 0, 0⟩ true 0).ease_factor ∧
      (applyOutcome ⟨1, 0, 5/2, 0, 0⟩ true 0).ease_factor ≤ 5/2 ∧
      0 ≤ (applyOutcome ⟨1, 0, 5/2, 0, 0⟩ true 0).interval ∧
      (applyOutcome ⟨1, 0, 5/2, 0, 0⟩ true 0).interval ≤ 365) ∧
     (13/10 ≤ (resetState ⟨1, 0, 5/2, 0, 0⟩ 0).ease_factor ∧
      (resetState ⟨1, 0, 5/2, 0, 0⟩ 0).ease_factor ≤ 5/2 ∧
      0 ≤ (resetState ⟨1, 0, 5/2, 0, 0⟩ 0).interval ∧
      (resetState ⟨1, 0, 5/2, 0, 0⟩ 0).interval ≤ 365)) :=
  srs_bounds_invariant ⟨1, 0, 5/2, 0, 0⟩ true 0 (by norm_num) (by norm_num)
    (by norm_num) (by norm_num)

/-- C7: submitting an answer signals NotFound exactly when no SRS record
exists for the vocab id; on success exactly one study-log entry with the
raw outcome and timestamp is appended, and no SRS record is created or
removed. -/
theorem submit_answer_spec (db : DB) (vid : ℤ) (known : Bool) (now : ℚ) :
    (submit_answer db vid known now = none ↔ ∀ s ∈ db.srs, s.vocab_id ≠ vid) ∧
    ∀ r, submit_answer db vid known now = some r →
      r.1.logs = db.logs ++ [⟨vid, known, now⟩] ∧
      r.1.srs.length = db.srs.length := by
  unfold submit_answer
  cases h : db.srs.find? (fun s => decide (s.vocab_id = vid)) with
  | none =>
    rw [List.find?_eq_none] at h
    constructor
    · simp only [true_iff]
      intro s hs
      have := h s hs
      simpa using this
    · intro r hr
      exact Option.noConfusion hr
  | some s =>
    have hmem := List.mem_of_find?_eq_some h
    have hps : s.vocab_id = vid := by
      have := List.find?_some h
      simpa using this
    constructor
    · constructor
      · intro habs
        exact Option.noConfusion habs
      · intro hall
        exact absurd hps (hall s hmem)
    · intro r hr
      have hr2 := Option.some.inj hr
      subst hr2
      exact ⟨rfl, length_updateFirst _ _ _⟩

/-- Witness for C7: one answer submitted against a one-record store. -/
theorem submit_answer_spec_witness :
    (⟨⟨[⟨1, 1, 5/2, 1, 3⟩], [⟨1, true, 2⟩]⟩,
      ⟨1, 1, 5/2, 1, 3⟩⟩ : DB × SRSReview).1.logs =
        ex7DB.logs ++ [⟨1, true, 2⟩] ∧
    (⟨⟨[⟨1, 1, 5/2, 1, 3⟩], [⟨1, true, 2⟩]⟩,
      ⟨1, 1, 5/2, 1, 3⟩⟩ : DB × SRSReview).1.srs.length = ex7DB.srs.length :=
  (submit_answer_spec ex7DB 1 true 2).2
    ⟨⟨[⟨1, 1, 5/2, 1, 3⟩], [⟨1, true, 2⟩]⟩, ⟨1, 1, 5/2, 1, 3⟩⟩
    (by
      simp [submit_answer, ex7DB, applyOutcome, updateFirst, List.find?,
        MAX_INTERVAL]
      norm_num)

lemma find?_updateFirst_decomp (l : List SRSReview) (vid : ℤ)
    (f : SRSReview → SRSReview) (s : SRSReview)
    (h : l.find? (fun t => decide (t.vocab_id = vid)) = some s) :
    ∃ l1 l2, l = l1 ++ s :: l2 ∧ s.vocab_id = vid ∧
      (∀ t ∈ l1, t.vocab_id ≠ vid) ∧
      updateFirst l vid f = l1 ++ f s :: l2 := by
  induction l with
  | nil => simp at h
  | cons a rest ih =>
    by_cases hpa : a.vocab_id = vid
    · rw [List.find?_cons_of_pos _ (by simpa using hpa)] at h
      have ha : a = s := Option.some.inj h
      subst ha
      exact ⟨[], rest, by simp, hpa, by simp, by simp [updateFirst, hpa]⟩
    · rw [List.find?_cons_of_neg _ (by simpa using hpa)] at h
      obtain ⟨l1, l2, e1, e2, e3, e4⟩ := ih h
      refine ⟨a :: l1, l2, by simp [e1], e2, ?_, by simp [updateFirst, hpa, e4]⟩
      intro t ht
      rcases List.mem_cons.mp ht with rfl | ht2
      · exact hpa
      · exact e3 t ht2

/-- C8: resetting signals NotFound exactly when the vocab id has no SRS
record; on success the study log is untouched and the first matching
record is overwritten with interval 0, ease factor 2.5, reps 0 and next
review now, every other record unchanged. -/
theorem reset_srs_spec (db : DB) (vid : ℤ) (now : ℚ) :
    (reset_srs db vid now = none ↔ ∀ s ∈ db.srs, s.vocab_id ≠ vid) ∧
    ∀ db2, reset_srs db vid now = some db2 →
      db2.logs = db.logs ∧
      ∃ l1 s l2, db.srs = l1 ++ s :: l2 ∧ s.vocab_id = vid ∧
        (∀ t ∈ l1, t.vocab_id ≠ vid) ∧
        db2.srs = l1 ++
          { vocab_id := s.vocab_id, interval := 0, ease_factor := 5/2,
            reps := 0, next_review := now } :: l2 := by
  unfold reset_srs
  cases h : db.srs.find? (fun t => decide (t.vocab_id = vid)) with
  | none =>
    rw [List.find?_eq_none] at h
    constructor
    · simp only [true_iff]
      intro s hs
      have := h s hs
      simpa using this
    · intro db2 hdb2
      exact Option.noConfusion hdb2
  | some s =>
    have hmem := List.mem_of_find?_eq_some h
    have hps : s.vocab_id = vid := by
      have := List.find?_some h
      simpa using this
    constructor
    · constructor
      · intro habs
        exact Option.noConfusion habs
      · intro hall
        exact absurd hps (hall s hmem)
    · intro db2 hdb2
      have hdb3 := Option.some.inj hdb2
      subst hdb3
      obtain ⟨l1, l2, e1, e2, e3, e4⟩ :=
        find?_updateFirst_decomp db.srs vid (fun t => resetState t now) s h
      exact ⟨rfl, l1, s, l2, e1, e2, e3, e4⟩

/-- Witness for C8: resetting item 1 in a two-record store. -/
theorem reset_srs_spec_witness :
    (⟨[⟨2, 4, 2, 3, 9⟩, ⟨1, 0, 5/2, 0, 0⟩], [⟨1, true, 3⟩]⟩ : DB).logs =
      ex8DB.logs ∧
    ∃ l1 s l2, ex8DB.srs = l1 ++ s :: l2 ∧ s.vocab_id = 1 ∧
      (∀ t ∈ l1, t.vocab_id ≠ 1) ∧
      (⟨[⟨2, 4, 2, 3, 9⟩, ⟨1, 0, 5/2, 0, 0⟩], [⟨1, true, 3⟩]⟩ : DB).srs =
        l1 ++
          { vocab_id := s.vocab_id, interval := 0, ease_factor := 5/2,
            reps := 0, next_review := 0 } :: l2 :=
  (reset_srs_spec ex8DB 1 0).2
    ⟨[⟨2, 4, 2, 3, 9⟩, ⟨1, 0, 5/2, 0, 0⟩], [⟨1, true, 3⟩]⟩
    (by simp [reset_srs, ex8DB, resetState, updateFirst, List.find?])

/-- C5: the due queue returns only records due at the query time, drawn
from the store, sorted ascending by next review, truncated to the limit
(its length is the minimum of the limit and the due count); the total is
the uncapped due count, independent of the limit; when the due count
fits under the limit the returned cards are exactly the due records; and
in every case the returned cards are an earliest-due prefix: completing
them with the remaining records gives an ascending arrangement of the
whole due set. -/
theorem get_review_cards_spec (store : List SRSReview) (T : ℚ) (limit : ℕ) :
    (∀ c ∈ (get_review_cards store T limit).1, c.next_review ≤ T) ∧
    (∀ c ∈ (get_review_cards store T limit).1, c ∈ store) ∧
    (get_review_cards store T limit).1.Pairwise
      (fun a b => a.next_review ≤ b.next_review) ∧
    (get_review_cards store T limit).2 =
      (store.filter (fun s => decide (s.next_review ≤ T))).length ∧
    (get_review_cards store T limit).1.length =
      min limit (get_review_cards store T limit).2 ∧
    (∀ limit2, (get_review_cards store T limit2).2 =
      (get_review_cards store T limit).2) ∧
    ((get_review_cards store T limit).2 ≤ limit →
      (get_review_cards store T limit).1.Perm
        (store.filter (fun s => decide (s.next_review ≤ T)))) ∧
    (∃ rest,
      ((get_review_cards store T limit).1 ++ rest).Perm
        (store.filter (fun s => decide (s.next_review ≤ T))) ∧
      ((get_review_cards store T limit).1 ++ rest).Pairwise
        (fun a b => a.next_review ≤ b.next_review)) := by
  have htrans : ∀ a b c : SRSReview, dueLe a b → dueLe b c → dueLe a c := by
    intro a b c hab hbc
    simp only [dueLe, decide_eq_true_eq] at hab hbc ⊢
    exact le_trans hab hbc
  have htotal : ∀ a b : SRSReview, dueLe a b || dueLe b a := by
    intro a b
    simp only [dueLe, Bool.or_eq_true, decide_eq_true_eq]
    exact le_total _ _
  have hs : ((store.filter (fun s => decide (s.next_review ≤ T))).mergeSort
      dueLe).Pairwise (fun a b => dueLe a b = true) :=
    List.sorted_mergeSort htrans htotal _
  have hp : ((store.filter (fun s => decide (s.next_review ≤ T))).mergeSort
      dueLe).Pairwise (fun a b => a.next_review ≤ b.next_review) :=
    hs.imp (fun h => by simpa [dueLe] using h)
  refine ⟨?_, ?_, ?_, rfl, ?_, fun limit2 => rfl, ?_, ?_⟩
  · intro c hc
    have hc2 : c ∈ store.filter (fun s => decide (s.next_review ≤ T)) := by
      have := List.mem_of_mem_take hc
      simpa [get_review_cards] using this
    have := (List.mem_filter.mp hc2).2
    simpa using this
  · intro c hc
    have hc2 : c ∈ store.filter (fun s => decide (s.next_review ≤ T)) := by
      have := List.mem_of_mem_take hc
      simpa [get_review_cards] using this
    exact (List.mem_filter.mp hc2).1
  · exact List.Pairwise.sublist (List.take_sublist _ _) hp
  · simp [get_review_cards]
  · intro hle
    have hlen : ((store.filter (fun s => decide (s.next_review ≤ T))).mergeSort
        dueLe).length ≤ limit := by
      simpa [get_review_cards] using hle
    have htake := List.take_of_length_le hlen
    have hperm :=
      List.mergeSort_perm (store.filter (fun s => decide (s.next_review ≤ T)))
        dueLe
    show (((store.filter (fun s => decide (s.next_review ≤ T))).mergeSort
        dueLe).take limit).Perm _
    rw [htake]
    exact hperm
  · refine ⟨((store.filter (fun s => decide (s.next_review ≤ T))).mergeSort
      dueLe).drop limit, ?_, ?_⟩
    · show ((((store.filter (fun s => decide (s.next_review ≤ T))).mergeSort
          dueLe).take limit) ++
        (((store.filter (fun s => decide (s.next_review ≤ T))).mergeSort
          dueLe).drop limit)).Perm _
      rw [List.take_append_drop]
      exact List.mergeSort_perm _ _
    · show ((((store.filter (fun s => decide (s.next_review ≤ T))).mergeSort
          dueLe).take limit) ++
        (((store.filter (fun s => decide (s.next_review ≤ T))).mergeSort
          dueLe).drop limit)).Pairwise _
      rw [List.take_append_drop]
      exact hp

/-- Witness for C5 on a three-record store with two records due. -/
theorem get_review_cards_spec_witness :
    (get_review_cards ex5Store 8 5).1.Perm
      (ex5Store.filter (fun s => decide (s.next_review ≤ 8))) :=
  (get_review_cards_spec ex5Store 8 5).2.2.2.2.2.2.1
    (by norm_num [get_review_cards, ex5Store])

/-- C10: the three public query parameters are validated at the
boundary: daily statistics accept exactly day counts 1..30, the
accuracy trend exactly 7..90, and the due-card limit exactly 1..100;
every out-of-range value (also positive ones) is rejected and every
in-range value is accepted. -/
theorem boundary_validation (log : List StudyLogEntry)
    (store : List SRSReview) (now : ℚ) (days tdays dlim : ℤ) :
    ((get_daily_stats log now days).isSome ↔ 1 ≤ days ∧ days ≤ 30) ∧
    ((get_accuracy_trend log now tdays).isSome ↔ 7 ≤ tdays ∧ tdays ≤ 90) ∧
    ((get_review_cards_endpoint store now dlim).isSome ↔
      1 ≤ dlim ∧ dlim ≤ 100) := by
  refine ⟨?_, ?_, ?_⟩
  · by_cases h : 1 ≤ days ∧ days ≤ 30 <;> simp [get_daily_stats, h]
  · by_cases h : 7 ≤ tdays ∧ tdays ≤ 90 <;> simp [get_accuracy_trend, h]
  · by_cases h : 1 ≤ dlim ∧ dlim ≤ 100 <;>
      simp [get_review_cards_endpoint, h]

lemma firstSuccess_eq_some_iff (log : List StudyLogEntry) (v : ℤ) (t : ℚ) :
    firstSuccess log v = some t ↔
      (∃ e ∈ log, e.known = true ∧ e.vocab_id = v ∧ e.studied_at = t) ∧
      ∀ e2 ∈ log, e2.known = true → e2.vocab_id = v → t ≤ e2.studied_at := by
  have hanti : Std.Antisymm ((· : ℚ) ≤ ·) := ⟨fun h1 h2 => le_antisymm h1 h2⟩
  unfold firstSuccess
  rw [List.min?_eq_some_iff (fun a => le_refl a) (fun a b => min_choice a b)
    (fun a b c => le_min_iff)]
  simp only [List.mem_map, List.mem_filter, decide_eq_true_eq]
  constructor
  · rintro ⟨⟨e, ⟨⟨he, hk⟩, hv⟩, het⟩, hmin⟩
    refine ⟨⟨e, he, hk, hv, het⟩, ?_⟩
    intro e2 he2 hk2 hv2
    exact hmin _ ⟨e2, ⟨⟨he2, hk2⟩, hv2⟩, rfl⟩
  · rintro ⟨⟨e, he, hk, hv, het⟩, hmin⟩
    refine ⟨⟨e, ⟨⟨he, hk⟩, hv⟩, het⟩, ?_⟩
    rintro b ⟨e2, ⟨⟨he2, hk2⟩, hv2⟩, rfl⟩
    exact hmin e2 he2 hk2 hv2

lemma firstSuccess_bucket_iff (log : List StudyLogEntry) (v start d : ℤ)
    (hd : start ≤ d) :
    ((match firstSuccess log v with
      | some t => decide ((start : ℚ) ≤ t) && decide (⌊t⌋ = d)
      | none => false) = true) ↔ FirstLearnedOn log v d := by
  cases hfs : firstSuccess log v with
  | none =>
    simp only [Bool.false_eq_true, false_iff]
    intro ⟨e, he, hk, hv, _, _⟩
    unfold firstSuccess at hfs
    rw [List.min?_eq_none_iff] at hfs
    have : e.studied_at ∈
        (((log.filter (fun e => e.known)).filter
          (fun e => decide (e.vocab_id = v))).map (fun e => e.studied_at)) := by
      simp only [List.mem_map, List.mem_filter, decide_eq_true_eq]
      exact ⟨e, ⟨⟨he, hk⟩, hv⟩, rfl⟩
    rw [hfs] at this
    simp at this
  | some t =>
    rw [firstSuccess_eq_some_iff] at hfs
    obtain ⟨⟨e, he, hk, hv, het⟩, hmin⟩ := hfs
    simp only [Bool.and_eq_true, decide_eq_true_eq]
    constructor
    · rintro ⟨hst, hfl⟩
      refine ⟨e, he, hk, hv, ?_, ?_⟩
      · rw [dateOf, het, hfl]
      · intro e2 he2 hk2 hv2
        rw [het]
        exact hmin e2 he2 hk2 hv2
    · rintro ⟨e3, he3, hk3, hv3, hd3, hmin3⟩
      have h1 : t ≤ e3.studied_at := hmin e3 he3 hk3 hv3
      have h2 : e3.studied_at ≤ t := by
        rw [← het]
        exact hmin3 e he hk hv
      have ht3 : e3.studied_at = t := le_antisymm h2 h1
      rw [dateOf] at hd3
      constructor
      · calc (start : ℚ) ≤ (d : ℚ) := by exact_mod_cast hd
          _ = ((⌊e3.studied_at⌋ : ℤ) : ℚ) := by exact_mod_cast hd3.symm
          _ ≤ e3.studied_at := Int.floor_le _
          _ = t := ht3
      · rw [← ht3]
        exact hd3

lemma newWordsOn_eq (log : List StudyLogEntry) (start d : ℤ)
    (hd : start ≤ d) :
    newWordsOn log start d =
      ((log.map (fun e => e.vocab_id)).toFinset.filter
        (fun v => FirstLearnedOn log v d)).card := by
  unfold newWordsOn
  have hpred : ∀ v ∈ successVocabIds log,
      (match firstSuccess log v with
       | some t => decide ((start : ℚ) ≤ t) && decide (⌊t⌋ = d)
       | none => false) = decide (FirstLearnedOn log v d) := by
    intro v _
    by_cases hP : FirstLearnedOn log v d
    · rw [(firstSuccess_bucket_iff log v start d hd).mpr hP]
      simp [hP]
    · cases hb : (match firstSuccess log v with
        | some t => decide ((start : ℚ) ≤ t) && decide (⌊t⌋ = d)
        | none => false) with
      | true => exact absurd ((firstSuccess_bucket_iff log v start d hd).mp hb) hP
      | false => simp [hP]
  rw [List.filter_congr hpred]
  have hnd : (successVocabIds log).Nodup := List.nodup_dedup _
  have hnd2 : ((successVocabIds log).filter
      (fun v => decide (FirstLearnedOn log v d))).Nodup := hnd.filter _
  rw [← List.toFinset_card_of_nodup hnd2, List.toFinset_filter]
  congr 1
  ext v
  simp only [Finset.mem_filter, List.mem_toFinset, decide_eq_true_eq,
    successVocabIds, List.mem_dedup, List.mem_map, List.mem_filter]
  constructor
  · rintro ⟨⟨e, ⟨he, hk⟩, hv⟩, hP⟩
    exact ⟨⟨e, he, hv⟩, hP⟩
  · rintro ⟨⟨e, he, hv⟩, hP⟩
    have hQ := hP
    obtain ⟨e3, he3, hk3, hv3, _, _⟩ := hQ
    exact ⟨⟨e3, ⟨he3, hk3⟩, hv3⟩, hP⟩

/-- C6: the new-words-learned figure of each daily entry is the number of
distinct vocabulary items whose earliest correct study-log entry over
the whole history falls on that calendar day; and on a one-entry log
with a correct answer today, daily statistics over one day report total
1, correct 1, incorrect 0, accuracy 100.0 and one new word learned. -/
theorem daily_new_words_spec :
    (∀ (log : List StudyLogEntry) (now : ℚ) (days : ℤ)
        (res : List DailyStats),
      get_daily_stats log now days = some res →
      ∀ st ∈ res, st.new_words_learned =
        ((log.map (fun e => e.vocab_id)).toFinset.filter
          (fun v => FirstLearnedOn log v st.date)).card) ∧
    get_daily_stats ex6Log (5 + 1/2) 1 =
      some [{ date := 5, total_reviews := 1, correct := 1, incorrect := 0,
              accuracy := 100, new_words_learned := 1 }] := by
  constructor
  · intro log now days res hres st hst
    unfold get_daily_stats at hres
    split_ifs at hres with hrange
    have hres2 := Option.some.inj hres
    subst hres2
    obtain ⟨j, hj, rfl⟩ := List.mem_map.mp hst
    simp only [mkDailyStat]
    exact newWordsOn_eq log _ _ (le_add_of_nonneg_right (Int.natCast_nonneg j))
  · have hfl : (⌊(5 + 1/2 : ℚ)⌋ : ℤ) = 5 := by norm_num
    unfold get_daily_stats
    rw [if_pos (by norm_num)]
    rw [hfl]
    norm_num [List.range, List.range.loop, mkDailyStat, dayTotal, dayCorrect,
      dayIncorrect, newWordsOn, successVocabIds, firstSuccess, round1,
      pyRound, dateOf, ex6Log, List.filter, List.dedup, List.min?]

/-- Witness for C6: the single reported day of the one-entry example,
with its new-words count re-expressed through the first-learned
predicate. -/
theorem daily_new_words_spec_witness :
    ({ date := 5, total_reviews := 1, correct := 1, incorrect := 0,
       accuracy := 100, new_words_learned := 1 } : DailyStats).new_words_learned =
      ((ex6Log.map (fun e => e.vocab_id)).toFinset.filter
        (fun v => FirstLearnedOn ex6Log v
          ({ date := 5, total_reviews := 1, correct := 1, incorrect := 0,
             accuracy := 100,
             new_words_learned := 1 } : DailyStats).date)).card :=
  daily_new_words_spec.1 ex6Log (5 + 1/2) 1
    [{ date := 5, total_reviews := 1, correct := 1, incorrect := 0,
       accuracy := 100, new_words_learned := 1 }]
    daily_new_words_spec.2 _ (List.mem_singleton.mpr rfl)

end JFlash
